import Mathlib

set_option maxRecDepth 40000

/-!
Verification development for a minimal research-agent program.

The program consists of two near-duplicate Python scripts (`pc.py` and
`pc1.py`).  The core logic is embedded shallowly here:

* strings are `List Char` (`Str`);
* `extract_decision` mirrors the regex-based fenced-block extraction
  followed by a YAML parse with a fallback record;
* the YAML library call (`yaml.safe_load`) is an external dependency; it is
  modelled by `yamlParse`, an executable parser for the subset of YAML this
  program's contracts exercise: block mappings with plain or double-quoted
  scalar values, literal block scalars (`key: |`), nested block mappings,
  plain multi-line scalars, and the empty document.  YAML sequences, flow
  collections, anchors, comments and single-quoted scalars are outside the
  modelled subset.  Parse failures return one of a fixed set of non-empty
  error messages, mirroring the non-empty `str(exc)` of a `YAMLError`;
* the three pocketflow nodes are embedded as `prep`/`exec`/`post`
  functions over an explicit `Shared` record; a Python exception (KeyError,
  TypeError, AttributeError) is modelled by an `Option` result of `none`;
* the external collaborators are parameters: the language model is a
  function `Str → Str` (the value produced by `call_llm`, which never
  raises), the search provider a function `Str → List SearchResult`.
-/

abbrev Str := List Char

def chars (s : String) : Str := s.data

/-- Is `c` one of the whitespace characters treated as `\s` by the regex and
stripped by Python's `str.strip()`. -/
def isYSpace (c : Char) : Bool :=
  c = ' ' || c = '\t' || c = '\n' || c = '\r' || c = '\x0b' || c = '\x0c'

def trimLeft (s : Str) : Str := s.dropWhile isYSpace

def trimRight (s : Str) : Str := (s.reverse.dropWhile isYSpace).reverse

/-- Python's `str.strip()` / the `\s*` padding of the fence regex. -/
def trim (s : Str) : Str := trimRight (trimLeft s)

/-- Leftmost split of `s` around the first occurrence of `pat`:
`splitFirst pat s = some (a, b)` iff `s = a ++ pat ++ b` with the occurrence
of `pat` at position `a.length` being the leftmost one.  This models
`re.search` for a literal pattern. -/
def splitFirst (pat s : Str) : Option (Str × Str) :=
  if List.isPrefixOf pat s then some ([], s.drop pat.length)
  else
    match s with
    | [] => none
    | c :: rest => (splitFirst pat rest).map (fun p => (c :: p.1, p.2))

/-- Does `pat` occur as a contiguous substring of `s`. -/
def containsSub (pat s : Str) : Bool := (splitFirst pat s).isSome

/-- The candidate payload chosen by `extract_decision`: the interior of the
first ```` ```yaml … ``` ```` block (whitespace-stripped, as by the regex's
`\s*` padding and `.strip()`), or the whole stripped response when the
regex `r"```yaml\s*(.*?)\s*```"` does not match. -/
def candidateOf (response : Str) : Str :=
  match splitFirst (chars "```yaml") response with
  | some (_, rest) =>
    match splitFirst (chars "```") rest with
    | some (interior, _) => trim interior
    | none => trim response
  | none => trim response

/-- Values produced by the modelled YAML subset (and hence the possible
shapes of a parsed Decision). -/
inductive Yaml where
  | null : Yaml
  | str : Str → Yaml
  | map : List (Str × Yaml) → Yaml

/-- The fixed error conditions of the modelled YAML subset. -/
inductive YErr where
  | noColon : YErr
  | badQuote : YErr
  | badIndent : YErr
  | badToken : YErr

/-- The (always non-empty) message attached to a parse error, standing for
`str(exc)` of the corresponding `yaml.YAMLError`. -/
def errMsg : YErr → Str
  | .noColon => chars "while scanning a simple key: could not find expected ':'"
  | .badQuote => chars "while scanning a quoted scalar: found unexpected end of stream"
  | .badIndent => chars "expected <block end>, but found another token"
  | .badToken => chars "found a character that cannot start any token"

def splitLines (s : Str) : List Str :=
  match s with
  | [] => [[]]
  | c :: rest =>
    if c = '\n' then [] :: splitLines rest
    else
      match splitLines rest with
      | [] => [[c]]
      | l :: ls => (c :: l) :: ls

def isBlank (l : Str) : Bool := l.all isYSpace

def countIndent (l : Str) : Nat :=
  match l with
  | [] => 0
  | c :: rest => if c = ' ' then countIndent rest + 1 else 0

def dropIndent (l : Str) : Str := l.dropWhile (fun c => c = ' ')

/-- Split a line into key text and value text at the first `':'` that is
followed by a space or ends the line (YAML's key/value separator; a `':'`
glued to a non-space belongs to the plain scalar). -/
def splitKey (l : Str) : Option (Str × Str) :=
  match l with
  | [] => none
  | c :: rest =>
    if c = ':' then
      match rest with
      | [] => some ([], [])
      | c2 :: rest2 =>
        if c2 = ' ' then some ([], rest2)
        else (splitKey rest).map (fun p => (c :: p.1, p.2))
    else (splitKey rest).map (fun p => (c :: p.1, p.2))

def escChar (c : Char) : Option Char :=
  if c = '"' then some '"'
  else if c = '\\' then some '\\'
  else if c = 'n' then some '\n'
  else if c = 't' then some '\t'
  else if c = '0' then some (Char.ofNat 0)
  else none

/-- Parse the remainder of a double-quoted scalar (the opening quote already
consumed): the scalar ends at the closing quote, which must end the token. -/
def parseQuoted (s : Str) : Except YErr Str :=
  match s with
  | [] => .error .badQuote
  | c :: rest =>
    if c = '"' then
      if rest.isEmpty then .ok [] else .error .badQuote
    else if c = '\\' then
      match rest with
      | [] => .error .badQuote
      | e :: rest2 =>
        match escChar e with
        | some ec => (parseQuoted rest2).map (fun t => ec :: t)
        | none => .error .badQuote
    else (parseQuoted rest).map (fun t => c :: t)

/-- Parse a scalar token: empty → null, `null`/`~` → null, double-quoted →
its unescaped interior, anything else → the raw trimmed text; the YAML
reserved indicators `` ` `` and `@` cannot start a plain scalar. -/
def parseScalar (s : Str) : Except YErr Yaml :=
  match trim s with
  | [] => .ok .null
  | c :: rest =>
    if c = '"' then (parseQuoted rest).map Yaml.str
    else if c = '`' then .error .badToken
    else if c = '@' then .error .badToken
    else if c :: rest = chars "null" then .ok .null
    else if c :: rest = chars "Null" then .ok .null
    else if c :: rest = chars "NULL" then .ok .null
    else if c :: rest = chars "~" then .ok .null
    else .ok (.str (c :: rest))

/-- Parse a mapping key token: a double-quoted key is unescaped, a plain key
is its trimmed text. -/
def parseKeyTok (s : Str) : Except YErr Str :=
  match trim s with
  | [] => .ok []
  | c :: rest => if c = '"' then parseQuoted rest else .ok (c :: rest)

/-- Lines belonging to a literal block scalar introduced at indent `ind`:
blank lines and lines indented more deeply than `ind`. -/
def takeBlockLines (ind : Nat) (lines : List Str) : List Str × List Str :=
  match lines with
  | [] => ([], [])
  | l :: rest =>
    if isBlank l = true ∨ ind < countIndent l then
      let p := takeBlockLines ind rest
      (l :: p.1, p.2)
    else ([], l :: rest)

def firstIndent (ls : List Str) : Nat :=
  match ls with
  | [] => 0
  | l :: rest => if isBlank l then firstIndent rest else countIndent l

/-- Content of a literal block scalar: strip the indentation of its first
non-blank line, join with newlines, clip trailing blank lines to a single
final newline. -/
def literalContent (ls : List Str) : Str :=
  let n := firstIndent ls
  let stripped := ls.map (List.drop n)
  let clipped := (stripped.reverse.dropWhile isBlank).reverse
  match clipped with
  | [] => []
  | _ => List.intercalate ['\n'] clipped ++ ['\n']

/-- Indentation of the first non-blank line, if any. -/
def nextIndent (ls : List Str) : Option Nat :=
  match ls with
  | [] => none
  | l :: rest => if isBlank l then nextIndent rest else some (countIndent l)

/-- Parse the entries of a block mapping whose keys sit at indent `ind`;
returns the entries together with the lines left over (the first line whose
indent drops below `ind`).  `fuel` only bounds recursion; `yamlParse`
supplies enough for any input. -/
def parseBlockF : Nat → Nat → List Str → Except YErr (List (Str × Yaml) × List Str)
  | 0, _, _ => .error .badIndent
  | _ + 1, _, [] => .ok ([], [])
  | fuel + 1, ind, l :: rest =>
      if isBlank l then parseBlockF fuel ind rest
      else if countIndent l < ind then .ok ([], l :: rest)
      else if ind < countIndent l then .error .badIndent
      else
        match splitKey (dropIndent l) with
        | none => .error .noColon
        | some kv =>
          match parseKeyTok kv.1 with
          | .error e => .error e
          | .ok k =>
            if trim kv.2 = ['|'] then
              let p := takeBlockLines ind rest
              match parseBlockF fuel ind p.2 with
              | .error e => .error e
              | .ok q => .ok ((k, .str (literalContent p.1)) :: q.1, q.2)
            else if trim kv.2 = [] then
              match nextIndent rest with
              | some nind =>
                if ind < nind then
                  match parseBlockF fuel nind rest with
                  | .error e => .error e
                  | .ok q =>
                    match parseBlockF fuel ind q.2 with
                    | .error e => .error e
                    | .ok q2 => .ok ((k, Yaml.map q.1) :: q2.1, q2.2)
                else
                  match parseBlockF fuel ind rest with
                  | .error e => .error e
                  | .ok q => .ok ((k, .null) :: q.1, q.2)
              | none => .ok ([(k, .null)], [])
            else
              match parseScalar kv.2 with
              | .error e => .error e
              | .ok v =>
                match parseBlockF fuel ind rest with
                | .error e => .error e
                | .ok q => .ok ((k, v) :: q.1, q.2)

def firstContent (ls : List Str) : Option Str :=
  match ls with
  | [] => none
  | l :: rest => if isBlank l then firstContent rest else some l

/-- Model of `yaml.safe_load` on the subset described in the module header:
an empty document is null; a document whose first non-blank line carries a
key is a block mapping (leftover lines are an error, as PyYAML reports
`expected <block end>`); otherwise the document is a plain scalar, which
must not be followed by key/value lines (PyYAML: `mapping values are not
allowed here`), with multi-line plain scalars folded with spaces. -/
def yamlParse (s : Str) : Except YErr Yaml :=
  let lines := splitLines s
  match firstContent lines with
  | none => .ok .null
  | some l =>
    if (splitKey (dropIndent l)).isSome then
      match parseBlockF (2 * lines.length + 2) (countIndent l) lines with
      | .error e => .error e
      | .ok (es, []) => .ok (Yaml.map es)
      | .ok (_, _ :: _) => .error .badIndent
    else
      if lines.any (fun l2 => !isBlank l2 && (splitKey (dropIndent l2)).isSome) then
        .error .noColon
      else
        parseScalar (List.intercalate [' ']
          ((lines.filter (fun l2 => !isBlank l2)).map trim))

/-- Python truthiness of the values `yaml.safe_load` can produce in the
modelled subset (`None`, `""` and `{}` are falsy). -/
def truthy : Yaml → Bool
  | .null => false
  | .str s => !s.isEmpty
  | .map es => !es.isEmpty

def rawKey : Str := chars "raw"

def errKey : Str := chars "_error"

/-- Model of `extract_decision` of `pc.py` lines 26–45 (identical in `pc1.py` lines
18–24): take the interior of the first fenced yaml block (or the whole
stripped response), parse it, replace a falsy result by the empty mapping
(`yaml.safe_load(yaml_text) or {}`), and on a parse error return the
fallback record with the raw candidate and the error description. -/
def extract_decision (response : Str) : Yaml :=
  let c := candidateOf response
  match yamlParse c with
  | .ok v => if truthy v then v else Yaml.map []
  | .error e => Yaml.map [(rawKey, .str c), (errKey, .str (errMsg e))]

/-- Lookup in a parsed mapping with Python-dict semantics: when the same
key was produced twice, the later entry wins. -/
def lookupY (es : List (Str × Yaml)) (key : Str) : Option Yaml :=
  match es with
  | [] => none
  | kv :: rest =>
    match lookupY rest key with
    | some w => some w
    | none => if kv.1 = key then some kv.2 else none

/-- Subscripting `d[k]` on a parsed value: `some v` when the value is a
mapping holding `k`; `none` when the key is missing or the value is not a
mapping at all (where Python subscripting would raise). -/
def dictGet (y : Yaml) (k : Str) : Option Yaml :=
  match y with
  | .map es => lookupY es k
  | _ => none

/-- Python `==` between a parsed value and a string literal (a non-string
never equals a string, without raising). -/
def isStrEq (y : Yaml) (s : Str) : Bool :=
  match y with
  | .str t => t = s
  | _ => false

/-- The shared store of one session.  `question` is always present (set by
the entry point; its absence is a fatal contract violation outside the
model).  The other keys start absent and hold whatever parsed value the
nodes store. -/
structure Shared where
  question : Str
  context : Option Yaml := none
  search_query : Option Yaml := none
  answer : Option Yaml := none

def quoteCh : Char := Char.ofNat 39

mutual

/-- Python `repr` of the modelled values, as used for values nested inside
an f-string-rendered dict (string escaping inside `repr` is not modelled). -/
def pyRepr : Yaml → Str
  | .null => chars "None"
  | .str s => quoteCh :: s ++ [quoteCh]
  | .map es => chars "\x7b" ++ pyReprEntries es ++ chars "\x7d"

def pyReprEntries : List (Str × Yaml) → Str
  | [] => []
  | [kv] => quoteCh :: kv.1 ++ [quoteCh] ++ chars ": " ++ pyRepr kv.2
  | kv :: rest =>
    quoteCh :: kv.1 ++ [quoteCh] ++ chars ": " ++ pyRepr kv.2 ++ chars ", "
      ++ pyReprEntries rest

end

/-- Python `str()` as applied by an f-string slot. -/
def pyStr : Yaml → Str
  | .null => chars "None"
  | .str s => s
  | .map es => chars "\x7b" ++ pyReprEntries es ++ chars "\x7d"

/-- The outcome of the `ollama.chat` call: an exception, or a response
record whose `message`/`content` entries may be absent. -/
structure ChatMessage where
  content : Option Str

structure ChatResponse where
  message : Option ChatMessage

/-- Model of `call_llm` of `pc.py` lines 11–20 (identical in `pc1.py` lines 7–15):
on an exception from the chat call, log and return the empty string; on
success return `response.get("message", {}).get("content", "")`. -/
def call_llm (outcome : Except Str ChatResponse) : Str :=
  match outcome with
  | .error _ => []
  | .ok r =>
    match r.message with
    | none => []
    | some m => m.content.getD []

/-- One search result record as yielded by the search provider. -/
structure SearchResult where
  title : Str
  href : Str
  body : Str

/-- The result formatting of `search_web_duckduckgo` (`pc.py` lines 51–60):
one `Title:`/`URL:`/`Snippet:` record per result, blank-line separated (an
empty result list renders as the empty string). -/
def formatResults (rs : List SearchResult) : Str :=
  List.intercalate (chars "\n\n")
    (rs.map (fun r =>
      chars "Title: " ++ r.title ++ chars "\nURL: " ++ r.href
        ++ chars "\nSnippet: " ++ r.body))

/-- The sentinel used by `DecideAction.prep` when the `context` key is
absent from the shared store. -/
def noPrevSearch : Str := chars "No previous search"

/-- Model of `DecideAction.prep` (`pc.py` lines 64–71, `pc1.py` lines 73–74):
`shared["question"]` and `shared.get("context", "No previous search")`. -/
def DecideAction_prep (sh : Shared) : Str × Yaml :=
  (sh.question, sh.context.getD (.str noPrevSearch))

/-- The decision prompt of `DecideAction.exec` (`pc.py` lines 80–113), an
f-string with the question and the rendered context interpolated. -/
def decidePrompt (question context : Str) : Str :=
  chars "\n### CONTEXT\nYou are a research assistant that can search the web.\nQuestion: "
    ++ question
    ++ chars "\nPrevious Research: "
    ++ context
    ++ chars "\n\n### ACTION SPACE\n[1] search\n  Description: Look up more information on the web\n  Parameters:\n    - query (str): What to search for\n\n[2] answer\n  Description: Answer the question with current knowledge\n  Parameters:\n    - answer (str): Final answer to the question\n\n## NEXT ACTION\nDecide the next action based on the context and available actions.\nReturn your response in this format:\n\n```yaml\nthinking: |\n    <your step-by-step reasoning process>\naction: search OR answer\nreason: <why you chose this action>\nanswer: <if action is answer>\nsearch_query: <specific search query if action is search>\n```\nIMPORTANT: Make sure to:\n1. Use proper indentation (4 spaces) for all multi-line fields\n2. Use the | character for multi-line text fields\n3. Keep single-line fields without the | character\n"

/-- The prompt `DecideAction.exec` sends for a given prep result. -/
def DecideAction_promptOf (pr : Str × Yaml) : Str :=
  decidePrompt pr.1 (pyStr pr.2)

/-- Model of `DecideAction.exec` (`pc.py` lines 73–121) with the language model
abstracted as `llm` (the text `call_llm` returns for a prompt): send the
decision prompt and parse the reply. -/
def DecideAction_exec (llm : Str → Str) (pr : Str × Yaml) : Yaml :=
  extract_decision (llm (DecideAction_promptOf pr))

/-- Model of `DecideAction.post` of `pc.py` lines 123–136.  `exec_res["action"]`
raises (modelled `none`) when the decision is not a mapping or lacks
`"action"`; the search branch stores `exec_res["search_query"]` (raising if
absent), the other branch stores `exec_res["answer"]` into `context`
(raising if absent); the action value is returned as the flow signal. -/
def DecideAction_post (sh : Shared) (exec_res : Yaml) : Option (Shared × Yaml) :=
  match dictGet exec_res (chars "action") with
  | none => none
  | some act =>
    if isStrEq act (chars "search") then
      match dictGet exec_res (chars "search_query") with
      | none => none
      | some q => some ({sh with search_query := some q}, act)
    else
      match dictGet exec_res (chars "answer") with
      | none => none
      | some a => some ({sh with context := some a}, act)

/-- Lookup `d.get(k)` on a parsed value: `none` models the AttributeError raised
when the value is not a mapping (e.g. a plain string); otherwise the
optional entry. -/
def dictGetOpt (y : Yaml) (k : Str) : Option (Option Yaml) :=
  match y with
  | .map es => some (lookupY es k)
  | _ => none

/-- Model of `DecideAction.post` of `pc1.py` lines 82–89: all accesses go through
`.get`, the search branch stores `exec_res.get("search_query", "")`, the
other branch stores `exec_res.get("answer", "")` into `context`, and
`exec_res.get("action", "")` is returned as the flow signal. -/
def pc1DecideAction_post (sh : Shared) (exec_res : Yaml) : Option (Shared × Yaml) :=
  match dictGetOpt exec_res (chars "action") with
  | none => none
  | some actOpt =>
    if (match actOpt with | some a => isStrEq a (chars "search") | none => false) then
      match dictGetOpt exec_res (chars "search_query") with
      | none => none
      | some qOpt =>
        some ({sh with search_query := some (qOpt.getD (.str []))},
          actOpt.getD (.str []))
    else
      match dictGetOpt exec_res (chars "answer") with
      | none => none
      | some aOpt =>
        some ({sh with context := some (aOpt.getD (.str []))},
          actOpt.getD (.str []))

/-- Model of `SearchWeb.post` of `pc.py` lines 152–167: append the search entry to
`shared.get("context", "")` by string concatenation (raising — modelled
`none` — when the stored context or query is not a string, or the query is
absent) and signal `"decide"`. -/
def SearchWeb_post (sh : Shared) (exec_res : Str) : Option (Shared × Yaml) :=
  match sh.context.getD (.str []) with
  | .str prev =>
    match sh.search_query with
    | some (.str q) =>
      let newctx := prev ++ chars "\n\nSEARCH: " ++ q ++ chars "\nRESULTS: " ++ exec_res
      some ({sh with context := some (.str newctx)}, .str (chars "decide"))
    | some _ => none
    | none => none
  | _ => none

/-- Model of `AnswerQuestion.prep` (`pc.py` lines 171–173): the question and
`shared.get("context", "")`. -/
def AnswerQuestion_prep (sh : Shared) : Str × Yaml :=
  (sh.question, sh.context.getD (.str []))

/-- The answer prompt of `AnswerQuestion.exec` (`pc.py` lines 182–190). -/
def answerPrompt (question context : Str) : Str :=
  chars "\n### CONTEXT\nBased on the following information, answer the question.\nQuestion: "
    ++ question
    ++ chars "\nResearch: "
    ++ context
    ++ chars "\n\n## YOUR ANSWER:\nProvide a comprehensive answer using the research results.\n"

/-- Model of `AnswerQuestion.exec` (`pc.py` lines 175–193): send the answer prompt
and return the model's reply verbatim. -/
def AnswerQuestion_exec (llm : Str → Str) (pr : Str × Yaml) : Str :=
  llm (answerPrompt pr.1 (pyStr pr.2))

/-- Model of `AnswerQuestion.post` (`pc.py` lines 195–203): store the reply in
`answer` and signal `"done"`. -/
def AnswerQuestion_post (sh : Shared) (exec_res : Str) : Shared × Yaml :=
  ({sh with answer := some (.str exec_res)}, .str (chars "done"))

/-- The three nodes wired by `create_agent_flow` (`pc.py` lines 206–235). -/
inductive NodeId where
  | decide : NodeId
  | search : NodeId
  | answer : NodeId

/-- The edges of `create_agent_flow`: `decide - "search" >> search`,
`decide - "answer" >> answer`, `search - "decide" >> decide`.  A signal
matching no edge ends the flow (pocketflow stops with a warning). -/
def successor (n : NodeId) (act : Yaml) : Option NodeId :=
  match n with
  | .decide =>
    if isStrEq act (chars "search") then some .search
    else if isStrEq act (chars "answer") then some .answer
    else none
  | .search => if isStrEq act (chars "decide") then some .decide else none
  | .answer => none

/-- One node execution (prep, exec, post), with the language model and the
search provider abstracted; `none` models an uncaught exception. -/
def runNode (llm : Str → Str) (provider : Str → List SearchResult) :
    NodeId → Shared → Option (Shared × Yaml)
  | .decide, sh => DecideAction_post sh (DecideAction_exec llm (DecideAction_prep sh))
  | .search, sh =>
    match sh.search_query with
    | some (.str q) => SearchWeb_post sh (formatResults (provider q))
    | _ => none
  | .answer, sh => some (AnswerQuestion_post sh (AnswerQuestion_exec llm (AnswerQuestion_prep sh)))

/-- Run the flow from a node until a signal matches no edge; `fuel` bounds
the number of steps (the literal design has no iteration bound), and `none`
covers both an uncaught exception and fuel exhaustion. -/
def runFlow (llm : Str → Str) (provider : Str → List SearchResult) :
    Nat → NodeId → Shared → Option Shared
  | 0, _, _ => none
  | fuel + 1, n, sh =>
    match runNode llm provider n sh with
    | none => none
    | some (sh', act) =>
      match successor n act with
      | none => some sh'
      | some n' => runFlow llm provider fuel n' sh'

/-- The reply of the stub model of end-to-end scenario 1: a decision block
choosing `answer` with answer text `John Doe`. -/
def stubReply : Str := chars "```yaml\naction: answer\nanswer: \"John Doe\"\n```"

/-- A model stub that always returns `stubReply`, whatever the prompt. -/
def stubLlm : Str → Str := fun _ => stubReply

/-- A search provider returning no results (unused by scenario 1). -/
def noResults : Str → List SearchResult := fun _ => []

/-- The default question of the entry point. -/
def nobelQuestion : Str := chars "Who won the Nobel Prize in Physics 2024?"

/-- The initial shared store built by `main`: only the question is set. -/
def sharedStart : Shared := { question := nobelQuestion }

/-! ### Properties of `splitFirst` and `containsSub` -/

theorem occurs_containsSub (pat : Str) : ∀ (a b : Str), containsSub pat (a ++ pat ++ b) = true := by
  intro a
  induction a with
  | nil =>
    intro b
    unfold containsSub splitFirst
    rw [List.nil_append, if_pos (List.isPrefixOf_iff_prefix.mpr (List.prefix_append pat b))]
    rfl
  | cons c a' ih =>
    intro b
    unfold containsSub splitFirst
    by_cases hp : List.isPrefixOf pat ((c :: a') ++ pat ++ b)
    · rw [if_pos hp]; rfl
    · rw [if_neg hp]
      have hs : (c :: a') ++ pat ++ b = c :: (a' ++ pat ++ b) := by simp
      rw [hs]
      have := ih b
      unfold containsSub at this
      simpa [Option.isSome_map] using this

theorem containsSub_occurs (pat : Str) :
    ∀ (s : Str), containsSub pat s = true → ∃ a b, s = a ++ pat ++ b := by
  intro s
  induction s with
  | nil =>
    intro h
    unfold containsSub splitFirst at h
    by_cases hp : List.isPrefixOf pat ([] : Str)
    · obtain ⟨t, ht⟩ := List.isPrefixOf_iff_prefix.mp hp
      exact ⟨[], t, by simp [← ht]⟩
    · rw [if_neg hp] at h
      simp at h
  | cons c rest ih =>
    intro h
    unfold containsSub splitFirst at h
    by_cases hp : List.isPrefixOf pat (c :: rest)
    · obtain ⟨t, ht⟩ := List.isPrefixOf_iff_prefix.mp hp
      exact ⟨[], t, by simp [← ht]⟩
    · rw [if_neg hp] at h
      have h2 : containsSub pat rest = true := by
        unfold containsSub
        simpa [Option.isSome_map] using h
      obtain ⟨x, y, hxy⟩ := ih h2
      exact ⟨c :: x, y, by simp [hxy]⟩

theorem containsSub_cons (pat : Str) (c : Char) (s : Str)
    (h : containsSub pat s = true) : containsSub pat (c :: s) = true := by
  obtain ⟨x, y, rfl⟩ := containsSub_occurs pat s h
  have := occurs_containsSub pat (c :: x) y
  simpa using this

/-- Leftmost-match characterisation: when `pat` has no occurrence starting
strictly before position `a.length` (equivalently, no occurrence inside
`a ++ pat.dropLast`), `splitFirst` splits exactly at `a`. -/
theorem splitFirst_first (pat : Str) (hne : pat ≠ []) :
    ∀ (a b : Str), containsSub pat (a ++ pat.dropLast) = false →
      splitFirst pat (a ++ pat ++ b) = some (a, b) := by
  intro a
  induction a with
  | nil =>
    intro b _
    unfold splitFirst
    rw [List.nil_append, if_pos (List.isPrefixOf_iff_prefix.mpr (List.prefix_append pat b))]
    rw [List.drop_left]
  | cons c a' ih =>
    intro b h
    have hp : ¬ List.isPrefixOf pat ((c :: a') ++ pat ++ b) := by
      intro hp
      have hpre : pat <+: (c :: a') ++ pat ++ b := List.isPrefixOf_iff_prefix.mp hp
      have hdp : (c :: a') ++ pat.dropLast <+: (c :: a') ++ pat ++ b := by
        obtain ⟨z, hz⟩ : ∃ z, pat.dropLast ++ [z] = pat :=
          ⟨pat.getLast hne, List.dropLast_append_getLast hne⟩
        refine ⟨[z] ++ b, ?_⟩
        calc (c :: a') ++ pat.dropLast ++ ([z] ++ b)
            = (c :: a') ++ (pat.dropLast ++ [z]) ++ b := by simp
          _ = (c :: a') ++ pat ++ b := by rw [hz]
      have hlen : pat.length ≤ ((c :: a') ++ pat.dropLast).length := by
        have h1 : pat.dropLast.length = pat.length - 1 := List.length_dropLast pat
        have h2 : 1 ≤ pat.length := List.length_pos.mpr hne
        simp only [List.length_append, List.length_cons, h1]
        omega
      have hin : pat <+: (c :: a') ++ pat.dropLast :=
        List.prefix_of_prefix_length_le hpre hdp hlen
      obtain ⟨t, ht⟩ := hin
      have htrue : containsSub pat ((c :: a') ++ pat.dropLast) = true := by
        have := occurs_containsSub pat [] t
        rw [List.nil_append, ht] at this
        exact this
      rw [htrue] at h
      exact Bool.noConfusion h
    have h' : containsSub pat (a' ++ pat.dropLast) = false := by
      cases hcase : containsSub pat (a' ++ pat.dropLast) with
      | false => rfl
      | true =>
        have := containsSub_cons pat c _ hcase
        have hcons : c :: (a' ++ pat.dropLast) = (c :: a') ++ pat.dropLast := by simp
        rw [hcons] at this
        rw [this] at h
        exact Bool.noConfusion h
    unfold splitFirst
    rw [if_neg hp]
    have hs : (c :: a') ++ pat ++ b = c :: (a' ++ pat ++ b) := by simp
    rw [hs]
    show Option.map (fun p => (c :: p.1, p.2)) (splitFirst pat (a' ++ pat ++ b))
      = some (c :: a', b)
    rw [ih b h']
    rfl

/-- With no earlier opening fence and no earlier closing fence, the
candidate payload is exactly the stripped interior of the first block. -/
theorem candidateOf_first (pre mid post : Str)
    (h1 : containsSub (chars "```yaml") (pre ++ chars "```yam") = false)
    (h2 : containsSub (chars "```") (mid ++ chars "``") = false) :
    candidateOf (pre ++ chars "```yaml" ++ mid ++ chars "```" ++ post) = trim mid := by
  have hd1 : (chars "```yaml").dropLast = chars "```yam" := by decide
  have hd2 : (chars "```").dropLast = chars "``" := by decide
  have e1 : splitFirst (chars "```yaml")
      (pre ++ chars "```yaml" ++ (mid ++ chars "```" ++ post))
      = some (pre, mid ++ chars "```" ++ post) := by
    apply splitFirst_first _ (by decide) pre _
    rw [hd1]
    exact h1
  have e2 : splitFirst (chars "```") (mid ++ chars "```" ++ post) = some (mid, post) := by
    apply splitFirst_first _ (by decide) mid post
    rw [hd2]
    exact h2
  have hassoc : pre ++ chars "```yaml" ++ mid ++ chars "```" ++ post
      = pre ++ chars "```yaml" ++ (mid ++ chars "```" ++ post) := by simp
  unfold candidateOf
  rw [hassoc]
  simp only [e1, e2]

/-! ### Properties of `trim`, `splitLines` and the quoted-scalar parser -/

theorem trimLeft_cons_space (c : Char) (s : Str) (h : isYSpace c = true) :
    trimLeft (c :: s) = trimLeft s := by
  simp [trimLeft, List.dropWhile_cons, h]

theorem trimLeft_cons_keep (c : Char) (s : Str) (h : isYSpace c = false) :
    trimLeft (c :: s) = c :: s := by
  simp [trimLeft, List.dropWhile_cons, h]

theorem trimRight_append_space (s : Str) (c : Char) (h : isYSpace c = true) :
    trimRight (s ++ [c]) = trimRight s := by
  simp [trimRight, List.reverse_append, List.dropWhile_cons, h]

theorem trimRight_append_keep (s : Str) (c : Char) (h : isYSpace c = false) :
    trimRight (s ++ [c]) = s ++ [c] := by
  simp [trimRight, List.reverse_append, List.dropWhile_cons, h]

/-- A string with non-space first and last characters is already stripped. -/
theorem trim_keep (c d : Char) (s : Str)
    (hc : isYSpace c = false) (hd : isYSpace d = false) :
    trim (c :: s ++ [d]) = c :: s ++ [d] := by
  unfold trim
  have h1 : trimLeft (c :: s ++ [d]) = c :: s ++ [d] := by
    have := trimLeft_cons_keep c (s ++ [d]) hc
    simpa using this
  rw [h1]
  have := trimRight_append_keep (c :: s) d hd
  simpa using this

theorem splitLines_ne_nil (s : Str) : splitLines s ≠ [] := by
  induction s with
  | nil => simp [splitLines]
  | cons c rest ih =>
    unfold splitLines
    by_cases hc : c = '\n'
    · simp [hc]
    · rw [if_neg hc]
      cases h : splitLines rest with
      | nil => simp
      | cons l ls => simp

theorem splitLines_no_newline (s : Str) (h : '\n' ∉ s) : splitLines s = [s] := by
  induction s with
  | nil => rfl
  | cons c rest ih =>
    have hc : ¬ c = '\n' := fun hc => h (hc ▸ List.mem_cons_self c rest)
    have hr : '\n' ∉ rest := fun hr => h (List.mem_cons_of_mem c hr)
    unfold splitLines
    rw [if_neg hc, ih hr]

theorem splitLines_append (l rest : Str) (h : '\n' ∉ l) :
    splitLines (l ++ '\n' :: rest) = l :: splitLines rest := by
  induction l with
  | nil =>
    show splitLines ('\n' :: rest) = [] :: splitLines rest
    simp [splitLines]
  | cons c l' ih =>
    have hc : ¬ c = '\n' := fun hc => h (hc ▸ List.mem_cons_self c l')
    have hl : '\n' ∉ l' := fun hl => h (List.mem_cons_of_mem c hl)
    show splitLines (c :: (l' ++ '\n' :: rest)) = (c :: l') :: splitLines rest
    simp [splitLines, hc, ih hl]

/-- An unescaped, quote-free string wrapped by a final quote parses back to
itself. -/
theorem parseQuoted_exact (X : Str) (h1 : '"' ∉ X) (h2 : '\\' ∉ X) :
    parseQuoted (X ++ ['"']) = .ok X := by
  induction X with
  | nil => rfl
  | cons c X' ih =>
    have hc1 : ¬ c = '"' := fun hc => h1 (hc ▸ List.mem_cons_self c X')
    have hc2 : ¬ c = '\\' := fun hc => h2 (hc ▸ List.mem_cons_self c X')
    have hX1 : '"' ∉ X' := fun hx => h1 (List.mem_cons_of_mem c hx)
    have hX2 : '\\' ∉ X' := fun hx => h2 (List.mem_cons_of_mem c hx)
    show parseQuoted (c :: (X' ++ ['"'])) = .ok (c :: X')
    unfold parseQuoted
    rw [if_neg hc1, if_neg hc2, ih hX1 hX2]
    rfl

/-- A string without backticks followed by two backticks cannot contain a
triple backtick: the closing fence of a block whose interior has no
backtick is the one written after it. -/
theorem noFence_of_no_backtick (s : Str) (h : '`' ∉ s) :
    containsSub (chars "```") (s ++ chars "``") = false := by
  cases hc : containsSub (chars "```") (s ++ chars "``") with
  | false => rfl
  | true =>
    exfalso
    obtain ⟨a, b, hab⟩ := containsSub_occurs _ _ hc
    have hlen := congrArg List.length hab
    have hl2 : (chars "``").length = 2 := rfl
    have hl3 : (chars "```").length = 3 := rfl
    simp only [List.length_append, hl2, hl3] at hlen
    have hlt : a.length < s.length := by omega
    have hdrop := congrArg (List.drop a.length) hab
    rw [List.drop_append_of_le_length (Nat.le_of_lt hlt)] at hdrop
    have hassoc : a ++ chars "```" ++ b = a ++ (chars "```" ++ b) := by simp
    rw [hassoc, List.drop_left] at hdrop
    cases hsd : s.drop a.length with
    | nil =>
      have := List.drop_eq_nil_iff.mp hsd
      omega
    | cons c rest =>
      rw [hsd] at hdrop
      have hcons : chars "```" = '`' :: chars "``" := rfl
      rw [hcons] at hdrop
      have hsplit : c = '`' ∧ rest ++ chars "``" = chars "``" ++ b := by
        simpa using hdrop
      have : c ∈ s := List.drop_subset a.length s (hsd ▸ List.mem_cons_self c rest)
      exact h (hsplit.1 ▸ this)

/-! ### Stepping lemmas for the block-mapping parser -/

/-- One scalar entry line of a block mapping. -/
theorem parseBlockF_entry (n ind : Nat) (l : Str) (rest : List Str)
    (k tvk : Str) (kv : Str × Str) (v : Yaml)
    (hb : isBlank l = false)
    (hi : countIndent l = ind)
    (hk : splitKey (dropIndent l) = some kv)
    (hkt : parseKeyTok kv.1 = .ok k)
    (htv : trim kv.2 = tvk)
    (h1 : tvk ≠ ['|'])
    (h2 : tvk ≠ [])
    (hs : parseScalar kv.2 = .ok v) :
    parseBlockF (n + 1) ind (l :: rest)
      = match parseBlockF n ind rest with
        | .error e => .error e
        | .ok q => .ok ((k, v) :: q.1, q.2) := by
  simp only [parseBlockF, hb, hi, hk, hkt, htv, hs]
  simp [h1, h2]

/-- A block-mapping document: splitting into lines, mode selection and the
block parse with the fuel `yamlParse` supplies. -/
theorem yamlParse_mapping (s : Str) (ls : List Str) (l0 : Str)
    (res : List (Str × Yaml))
    (hsplit : splitLines s = ls)
    (hfc : firstContent ls = some l0)
    (hkey : (splitKey (dropIndent l0)).isSome = true)
    (hblock : parseBlockF (2 * ls.length + 2) (countIndent l0) ls = .ok (res, [])) :
    yamlParse s = .ok (Yaml.map res) := by
  unfold yamlParse
  rw [hsplit]
  simp only [hfc, hkey, if_true, hblock]

/-- The round-trip payload `action: answer` / `answer: "X"` parses to the
expected two-entry mapping whenever `X` is representable inside a
double-quoted scalar. -/
theorem yamlParse_roundTrip (X : Str)
    (hq : '"' ∉ X) (hbs : '\\' ∉ X) (hnl : '\n' ∉ X) :
    yamlParse (chars "action: answer\nanswer: \"" ++ X ++ chars "\"")
      = .ok (Yaml.map
          [(chars "action", .str (chars "answer")), (chars "answer", .str X)]) := by
  have hdecomp : chars "action: answer\nanswer: \"" ++ X ++ chars "\""
      = chars "action: answer" ++ '\n' :: (chars "answer: \"" ++ X ++ chars "\"") := rfl
  have hnl2 : '\n' ∉ chars "answer: \"" ++ X ++ chars "\"" := by
    intro hmem
    rcases List.mem_append.mp hmem with hmem2 | hmem2
    · rcases List.mem_append.mp hmem2 with hmem3 | hmem3
      · revert hmem3; decide
      · exact hnl hmem3
    · revert hmem2; decide
  have hlines : splitLines (chars "action: answer\nanswer: \"" ++ X ++ chars "\"")
      = [chars "action: answer", chars "answer: \"" ++ X ++ chars "\""] := by
    rw [hdecomp, splitLines_append _ _ (by decide),
      splitLines_no_newline _ hnl2]
  -- value token of the second line
  have htv : trim ('"' :: (X ++ chars "\"")) = '"' :: (X ++ chars "\"") := by
    have h0 : ('"' :: X) ++ ['"'] = '"' :: (X ++ chars "\"") := by
      simp [List.cons_append]
      rfl
    rw [← h0]
    exact trim_keep '"' '"' X (by decide) (by decide)
  have hs2 : parseScalar ('"' :: (X ++ chars "\"")) = .ok (.str X) := by
    unfold parseScalar
    rw [htv]
    have hpq : parseQuoted (X ++ chars "\"") = .ok X := by
      have : X ++ chars "\"" = X ++ ['"'] := rfl
      rw [this]
      exact parseQuoted_exact X hq hbs
    simp [hpq]
    rfl
  -- the second entry line
  have e2 : parseBlockF 5 0 [chars "answer: \"" ++ X ++ chars "\""]
      = match parseBlockF 4 0 ([] : List Str) with
        | .error e => .error e
        | .ok q => .ok ((chars "answer", Yaml.str X) :: q.1, q.2) :=
    parseBlockF_entry 4 0 (chars "answer: \"" ++ X ++ chars "\"") []
      (chars "answer") ('"' :: (X ++ chars "\""))
      (chars "answer", '"' :: (X ++ chars "\"")) (.str X)
      rfl rfl rfl rfl htv
      (by
        intro heq
        have := (List.cons.injEq '"' (X ++ chars "\"") '|' []).mp heq
        exact absurd this.1 (by decide))
      (List.cons_ne_nil _ _) hs2
  -- the first entry line
  have e1 : parseBlockF 6 0
      [chars "action: answer", chars "answer: \"" ++ X ++ chars "\""]
      = match parseBlockF 5 0 [chars "answer: \"" ++ X ++ chars "\""] with
        | .error e => .error e
        | .ok q => .ok ((chars "action", Yaml.str (chars "answer")) :: q.1, q.2) :=
    parseBlockF_entry 5 0 (chars "action: answer")
      [chars "answer: \"" ++ X ++ chars "\""]
      (chars "action") (chars "answer") (chars "action", chars "answer")
      (.str (chars "answer")) rfl rfl rfl rfl rfl (by decide) (by decide) rfl
  have hblock : parseBlockF 6 0
      [chars "action: answer", chars "answer: \"" ++ X ++ chars "\""]
      = .ok ([(chars "action", .str (chars "answer")), (chars "answer", .str X)], []) := by
    rw [e1, e2]
    rfl
  exact yamlParse_mapping _ _ (chars "action: answer") _ hlines rfl rfl hblock

/-- Stripping the fence padding of the round-trip block leaves exactly the
two payload lines. -/
theorem trim_roundTripMid (X : Str) :
    trim (chars "\naction: answer\nanswer: \"" ++ X ++ chars "\"\n")
      = chars "action: answer\nanswer: \"" ++ X ++ chars "\"" := by
  have hq1 : chars "\"\n" = ['"', '\n'] := rfl
  have hq2 : chars "\"" = ['"'] := rfl
  have hq3 : chars "\naction: answer\nanswer: \"" = '\n' :: chars "action: answer\nanswer: \"" := rfl
  have h1 : chars "\naction: answer\nanswer: \"" ++ X ++ chars "\"\n"
      = '\n' :: ((chars "action: answer\nanswer: \"" ++ X ++ chars "\"") ++ ['\n']) := by
    rw [hq1, hq2, hq3]
    simp
  rw [h1]
  unfold trim
  rw [trimLeft_cons_space '\n' _ (by decide)]
  have hB : trimLeft ((chars "action: answer\nanswer: \"" ++ X ++ chars "\"") ++ ['\n'])
      = (chars "action: answer\nanswer: \"" ++ X ++ chars "\"") ++ ['\n'] := by
    have hshape : (chars "action: answer\nanswer: \"" ++ X ++ chars "\"") ++ ['\n']
        = 'a' :: ((chars "ction: answer\nanswer: \"" ++ X ++ chars "\"") ++ ['\n']) := rfl
    rw [hshape, trimLeft_cons_keep _ _ (by decide), ← hshape]
  rw [hB, trimRight_append_space _ '\n' (by decide)]
  rw [hq2, trimRight_append_keep _ '"' (by decide)]

theorem isStrEq_true (y : Yaml) (s : Str) (h : isStrEq y s = true) : y = .str s := by
  cases y with
  | null => exact absurd h (by simp [isStrEq])
  | map es => exact absurd h (by simp [isStrEq])
  | str t =>
    unfold isStrEq at h
    rw [of_decide_eq_true h]

theorem errMsg_ne_nil (e : YErr) : errMsg e ≠ [] := by
  cases e <;> decide

/-! ### The claims -/

/-- C2: for every input string the Decision Parser returns a value (it is a
total function here by construction, mirroring the `except` recovery), and
whenever the candidate payload fails to parse as YAML the result is the
fallback record holding the candidate text under `raw` together with a
non-empty error description under `_error`. -/
theorem c2_parse_failure_fallback (response : Str) (e : YErr)
    (h : yamlParse (candidateOf response) = .error e) :
    extract_decision response
      = Yaml.map [(rawKey, .str (candidateOf response)), (errKey, .str (errMsg e))]
    ∧ errMsg e ≠ [] := by
  constructor
  · unfold extract_decision
    simp only [h]
  · exact errMsg_ne_nil e

theorem c2_witness :
    extract_decision (chars "action: search\nthen no colon line")
      = Yaml.map [(rawKey, .str (chars "action: search\nthen no colon line")),
          (errKey, .str (errMsg .noColon))]
    ∧ errMsg YErr.noColon ≠ [] :=
  c2_parse_failure_fallback (chars "action: search\nthen no colon line") .noColon rfl

/-- C3: for a response containing a well-formed fenced yaml block —
formalised as a decomposition with no opening fence earlier than the
block's and no closing fence inside its interior — the parser's candidate
is exactly the stripped interior of the first block, and the parse result
coincides with that of the block alone: the preceding text and everything
after the block (later blocks included) have no effect. -/
theorem c3_first_block_only (pre mid post : Str)
    (hopen : containsSub (chars "```yaml") (pre ++ chars "```yam") = false)
    (hclose : containsSub (chars "```") (mid ++ chars "``") = false) :
    candidateOf (pre ++ chars "```yaml" ++ mid ++ chars "```" ++ post) = trim mid
    ∧ extract_decision (pre ++ chars "```yaml" ++ mid ++ chars "```" ++ post)
      = extract_decision (chars "```yaml" ++ mid ++ chars "```") := by
  have h1 := candidateOf_first pre mid post hopen hclose
  have h2 : candidateOf (chars "```yaml" ++ mid ++ chars "```") = trim mid := by
    have h0 : containsSub (chars "```yaml") ([] ++ chars "```yam") = false := by
      rw [List.nil_append]
      decide
    have := candidateOf_first [] mid [] h0 hclose
    simpa using this
  refine ⟨h1, ?_⟩
  unfold extract_decision
  simp only [h1, h2]

theorem c3_witness :
    candidateOf (chars "Sure, here you go:\n```yaml\naction: search\nsearch_query: nobel physics 2024\n```\nGood luck! ```yaml\naction: answer\n```")
      = trim (chars "\naction: search\nsearch_query: nobel physics 2024\n")
    ∧ extract_decision (chars "Sure, here you go:\n```yaml\naction: search\nsearch_query: nobel physics 2024\n```\nGood luck! ```yaml\naction: answer\n```")
      = extract_decision (chars "```yaml\naction: search\nsearch_query: nobel physics 2024\n```") :=
  c3_first_block_only (chars "Sure, here you go:\n")
    (chars "\naction: search\nsearch_query: nobel physics 2024\n")
    (chars "\nGood luck! ```yaml\naction: answer\n```") (by decide) (by decide)

/-- C6: a failing model call makes the Language Model Client return the
empty string (never raising), and the Decision Parser maps the empty
payload to the empty mapping. -/
theorem c6_llm_failure_empty (err : Str) :
    call_llm (.error err) = [] ∧ extract_decision [] = Yaml.map [] :=
  ⟨rfl, rfl⟩

/-- C10: the Decision Parser does not always return a mapping — a bare
prose sentence with no fenced block and no colon parses as a YAML scalar
and is returned as that plain string. -/
theorem c10_scalar_result :
    extract_decision (chars "The 2024 Nobel Prize went to John Doe")
      = Yaml.str (chars "The 2024 Nobel Prize went to John Doe")
    ∧ ∀ es, Yaml.str (chars "The 2024 Nobel Prize went to John Doe") ≠ Yaml.map es := by
  refine ⟨rfl, fun es h => Yaml.noConfusion h⟩

/-- C8: round-trip — any response whose first fenced yaml block is
`action: answer` with `answer: "X"`, for an `X` representable in a
double-quoted scalar (no quote, backslash, newline or backtick), parses to
a record whose `answer` field is exactly `X`, with no truncation or
trimming. -/
theorem c8_roundTrip (X pre post : Str)
    (hq : '"' ∉ X) (hbs : '\\' ∉ X) (hnl : '\n' ∉ X) (hbt : '`' ∉ X)
    (hopen : containsSub (chars "```yaml") (pre ++ chars "```yam") = false) :
    extract_decision (pre ++ chars "```yaml"
        ++ (chars "\naction: answer\nanswer: \"" ++ X ++ chars "\"\n")
        ++ chars "```" ++ post)
      = Yaml.map [(chars "action", .str (chars "answer")), (chars "answer", .str X)]
    ∧ dictGet (extract_decision (pre ++ chars "```yaml"
        ++ (chars "\naction: answer\nanswer: \"" ++ X ++ chars "\"\n")
        ++ chars "```" ++ post)) (chars "answer") = some (.str X) := by
  have hmid : '`' ∉ chars "\naction: answer\nanswer: \"" ++ X ++ chars "\"\n" := by
    intro hmem
    rcases List.mem_append.mp hmem with h2 | h2
    · rcases List.mem_append.mp h2 with h3 | h3
      · revert h3; decide
      · exact hbt h3
    · revert h2; decide
  have hclose := noFence_of_no_backtick _ hmid
  have hcand := candidateOf_first pre
    (chars "\naction: answer\nanswer: \"" ++ X ++ chars "\"\n") post hopen hclose
  have htrim := trim_roundTripMid X
  have hyaml := yamlParse_roundTrip X hq hbs hnl
  have hmain : extract_decision (pre ++ chars "```yaml"
      ++ (chars "\naction: answer\nanswer: \"" ++ X ++ chars "\"\n")
      ++ chars "```" ++ post)
      = Yaml.map [(chars "action", .str (chars "answer")), (chars "answer", .str X)] := by
    unfold extract_decision
    simp only [hcand, htrim, hyaml]
    rfl
  refine ⟨hmain, ?_⟩
  rw [hmain]
  rfl

theorem c8_witness :
    extract_decision (chars "Sure!\n" ++ chars "```yaml"
        ++ (chars "\naction: answer\nanswer: \"" ++ chars "John Doe" ++ chars "\"\n")
        ++ chars "```" ++ chars "\nHope that helps.")
      = Yaml.map [(chars "action", .str (chars "answer")),
          (chars "answer", .str (chars "John Doe"))]
    ∧ dictGet (extract_decision (chars "Sure!\n" ++ chars "```yaml"
        ++ (chars "\naction: answer\nanswer: \"" ++ chars "John Doe" ++ chars "\"\n")
        ++ chars "```" ++ chars "\nHope that helps.")) (chars "answer")
      = some (.str (chars "John Doe")) :=
  c8_roundTrip (chars "John Doe") (chars "Sure!\n") (chars "\nHope that helps.")
    (by decide) (by decide) (by decide) (by decide) (by decide)

/-- C4: with a string query stored in `search_query` and a string (or
absent) context, the Search state's post step appends to `context` exactly
the separator, the literal query and the formatted result set (an empty
result list rendering as the empty string, not an error), keeps the prior
context as a prefix of the new one, and always signals `"decide"`. -/
theorem c4_search_post (sh : Shared) (prev q : Str) (results : List SearchResult)
    (hctx : sh.context = none ∧ prev = [] ∨ sh.context = some (.str prev))
    (hq : sh.search_query = some (.str q)) :
    SearchWeb_post sh (formatResults results)
      = some ({sh with context := some (.str (prev ++ chars "\n\nSEARCH: " ++ q
          ++ chars "\nRESULTS: " ++ formatResults results))}, .str (chars "decide"))
    ∧ (∃ t, prev ++ t = prev ++ chars "\n\nSEARCH: " ++ q
        ++ chars "\nRESULTS: " ++ formatResults results)
    ∧ formatResults [] = [] := by
  refine ⟨?_, ⟨chars "\n\nSEARCH: " ++ q ++ chars "\nRESULTS: " ++ formatResults results,
    by simp⟩, rfl⟩
  rcases hctx with ⟨h1, h2⟩ | h1
  · unfold SearchWeb_post
    rw [h1, h2, hq]
    rfl
  · unfold SearchWeb_post
    rw [h1, hq]
    rfl

theorem c4_witness :
    SearchWeb_post
      (Shared.mk nobelQuestion (some (.str (chars "OLD")))
        (some (.str (chars "nobel physics 2024"))) none)
      (formatResults [])
      = some (Shared.mk nobelQuestion
          (some (.str (chars "OLD" ++ chars "\n\nSEARCH: "
            ++ chars "nobel physics 2024" ++ chars "\nRESULTS: " ++ formatResults [])))
          (some (.str (chars "nobel physics 2024"))) none, .str (chars "decide"))
    ∧ (∃ t, chars "OLD" ++ t = chars "OLD" ++ chars "\n\nSEARCH: "
        ++ chars "nobel physics 2024" ++ chars "\nRESULTS: " ++ formatResults [])
    ∧ formatResults [] = [] :=
  c4_search_post _ (chars "OLD") (chars "nobel physics 2024") [] (Or.inr rfl) rfl

/-- C1 counterexample: in `pc.py`, feeding the parser's fallback record
(which has no `action` key) to `DecideAction.post` raises a KeyError
(modelled as `none`), so the claim that the Decide post-processing never
raises on an unrecognised decision is false for that variant. -/
theorem c1_counterexample :
    DecideAction_post sharedStart
      (Yaml.map [(rawKey, .str (chars "gibberish ]] not yaml")),
        (errKey, .str (errMsg .noColon))]) = none := rfl

/-- C1 amended: in the `pc1.py` variant, `DecideAction.post` never raises
on any parsed mapping — a fallback record or a record with a missing or
unrecognised `action` resolves through the `.get` defaults; in the `pc.py`
variant, `post` raises (returns `none`) on every decision lacking an
`action` entry. -/
theorem c1_amended :
    (∀ (sh : Shared) (es : List (Str × Yaml)),
      (pc1DecideAction_post sh (Yaml.map es)).isSome = true)
    ∧ (∀ (sh : Shared) (dec : Yaml), dictGet dec (chars "action") = none →
      DecideAction_post sh dec = none) := by
  constructor
  · intro sh es
    cases hc : lookupY es (chars "action") with
    | none => simp [pc1DecideAction_post, dictGetOpt, hc]
    | some a =>
      simp only [pc1DecideAction_post, dictGetOpt, hc]
      split <;> rfl
  · intro sh dec h
    unfold DecideAction_post
    rw [h]

theorem c1_witness :
    DecideAction_post sharedStart (Yaml.map [(chars "thinking", .str (chars "hmm"))])
      = none :=
  c1_amended.2 sharedStart (Yaml.map [(chars "thinking", .str (chars "hmm"))]) rfl

/-- C5 counterexample: the Decide state's answer branch overwrites
`context` with the decision's answer, so the prior context (here a
non-empty research log) is not a prefix of the new one: `context` is not
append-only across Decide executions. -/
theorem c5_counterexample :
    DecideAction_post
      (Shared.mk (chars "q") (some (.str (chars "long research log"))) none none)
      (Yaml.map [(chars "action", .str (chars "answer")),
        (chars "answer", .str (chars "hi"))])
      = some (Shared.mk (chars "q") (some (.str (chars "hi"))) none none,
          .str (chars "answer"))
    ∧ ¬ ∃ t, chars "long research log" ++ t = chars "hi" := by
  refine ⟨rfl, ?_⟩
  rintro ⟨t, h⟩
  have hl := congrArg List.length h
  rw [List.length_append] at hl
  have e1 : (chars "long research log").length = 17 := rfl
  have e2 : (chars "hi").length = 2 := rfl
  rw [e1, e2] at hl
  omega

/-- C5 amended: `context` is append-only across Search and Answer state
executions and across Decide executions that choose `search`; a Decide
execution that resolves to the answer branch instead replaces `context`
with the decision's `answer` value. -/
theorem c5_amended :
    (∀ (sh : Shared) (prev q er : Str),
      (sh.context = none ∧ prev = [] ∨ sh.context = some (.str prev)) →
      sh.search_query = some (.str q) →
      ∃ t sh2 act, SearchWeb_post sh er = some (sh2, act)
        ∧ sh2.context = some (.str (prev ++ t)))
    ∧ (∀ (sh : Shared) (er : Str), ((AnswerQuestion_post sh er).1).context = sh.context)
    ∧ (∀ (sh : Shared) (dec : Yaml) (sh2 : Shared) (act : Yaml),
      DecideAction_post sh dec = some (sh2, act) →
      (act = .str (chars "search") → sh2.context = sh.context)
      ∧ (act ≠ .str (chars "search") → sh2.context = dictGet dec (chars "answer"))) := by
  refine ⟨?_, fun sh er => rfl, ?_⟩
  · intro sh prev q er hctx hq
    have hpost : SearchWeb_post sh er
        = some ({sh with context := some (.str (prev ++ chars "\n\nSEARCH: " ++ q
            ++ chars "\nRESULTS: " ++ er))}, .str (chars "decide")) := by
      rcases hctx with ⟨h1, h2⟩ | h1
      · unfold SearchWeb_post
        rw [h1, h2, hq]
        rfl
      · unfold SearchWeb_post
        rw [h1, hq]
        rfl
    refine ⟨chars "\n\nSEARCH: " ++ q ++ chars "\nRESULTS: " ++ er, _, _, hpost, ?_⟩
    simp [List.append_assoc]
  · intro sh dec sh2 act h
    cases hga : dictGet dec (chars "action") with
    | none =>
      unfold DecideAction_post at h
      rw [hga] at h
      exact absurd h (by simp)
    | some act' =>
      have hred : DecideAction_post sh dec
          = if isStrEq act' (chars "search") = true then
              match dictGet dec (chars "search_query") with
              | none => none
              | some qv => some ({sh with search_query := some qv}, act')
            else
              match dictGet dec (chars "answer") with
              | none => none
              | some av => some ({sh with context := some av}, act') := by
        unfold DecideAction_post
        rw [hga]
      rw [hred] at h
      by_cases hbr : isStrEq act' (chars "search") = true
      · rw [if_pos hbr] at h
        cases hgq : dictGet dec (chars "search_query") with
        | none =>
          rw [hgq] at h
          exact absurd h (by simp)
        | some qv =>
          rw [hgq] at h
          have h2 : some ({sh with search_query := some qv}, act') = some (sh2, act) := h
          have hpair := Option.some.inj h2
          have hsh : sh2 = {sh with search_query := some qv} := (congrArg Prod.fst hpair).symm
          have hact : act = act' := (congrArg Prod.snd hpair).symm
          constructor
          · intro _
            rw [hsh]
          · intro hne
            exact absurd (hact.trans (isStrEq_true act' (chars "search") hbr)) hne
      · rw [if_neg hbr] at h
        cases hgans : dictGet dec (chars "answer") with
        | none =>
          rw [hgans] at h
          exact absurd h (by simp)
        | some av =>
          rw [hgans] at h
          have h2 : some ({sh with context := some av}, act') = some (sh2, act) := h
          have hpair := Option.some.inj h2
          have hsh : sh2 = {sh with context := some av} := (congrArg Prod.fst hpair).symm
          have hact : act = act' := (congrArg Prod.snd hpair).symm
          constructor
          · intro hacts
            rw [← hact, hacts] at hbr
            exact absurd (by simp [isStrEq]) hbr
          · intro _
            simp [hsh, hgans]

theorem c5_witness :
    ∃ t sh2 act,
      SearchWeb_post
        (Shared.mk (chars "q") (some (.str (chars "log")))
          (some (.str (chars "nobel"))) none) (chars "RES")
        = some (sh2, act)
      ∧ sh2.context = some (.str (chars "log" ++ t)) :=
  c5_amended.1
    (Shared.mk (chars "q") (some (.str (chars "log")))
      (some (.str (chars "nobel"))) none)
    (chars "log") (chars "nobel") (chars "RES") (Or.inr rfl) rfl

/-- C7 counterexample: under the stub that always returns the decision
block, the loop does terminate after one Decide iteration, but the final
`answer` is the stub's raw reply to the answer prompt — the whole fenced
block text — not the string `John Doe` (which ends up in `context`
instead): `AnswerQuestion.exec` stores the model's reply verbatim. -/
theorem c7_counterexample :
    runFlow stubLlm noResults 10 .decide sharedStart
      = some (Shared.mk nobelQuestion (some (.str (chars "John Doe"))) none
          (some (.str stubReply)))
    ∧ stubReply ≠ chars "John Doe" := by
  refine ⟨rfl, ?_⟩
  decide

/-- C7 amended: with the constant stub, the single Decide execution
resolves directly to the `answer` signal with `context` set to `John Doe`,
the flow transitions to the Answer state, and the loop terminates with the
final `answer` equal to the stub's reply to the answer prompt. -/
theorem c7_amended :
    runNode stubLlm noResults .decide sharedStart
      = some (Shared.mk nobelQuestion (some (.str (chars "John Doe"))) none none,
          .str (chars "answer"))
    ∧ successor .decide (.str (chars "answer")) = some .answer
    ∧ runFlow stubLlm noResults 10 .decide sharedStart
      = some (Shared.mk nobelQuestion (some (.str (chars "John Doe"))) none
          (some (.str (stubLlm (answerPrompt nobelQuestion (chars "John Doe")))))) :=
  ⟨rfl, rfl, rfl⟩

/-- C9 counterexample: a context key holding the empty string is not
replaced by the sentinel — `dict.get` only defaults on an absent key — so
the prompt is built with an empty Previous Research section, unlike the
sentinel prompt. -/
theorem c9_counterexample :
    DecideAction_promptOf (DecideAction_prep
        (Shared.mk (chars "q") (some (.str [])) none none))
      = decidePrompt (chars "q") []
    ∧ decidePrompt (chars "q") [] ≠ decidePrompt (chars "q") noPrevSearch := by
  refine ⟨rfl, ?_⟩
  intro h
  have hl := congrArg List.length h
  have e1 : (decidePrompt (chars "q") []).length = 889 := rfl
  have e2 : (decidePrompt (chars "q") noPrevSearch).length = 907 := rfl
  rw [e1, e2] at hl
  omega

/-- C9 amended: the sentinel `No previous search` is used exactly when the
`context` key is absent; a present context — the empty string included —
is interpolated into the prompt as it stands. -/
theorem c9_amended (sh : Shared) :
    (sh.context = none →
      DecideAction_promptOf (DecideAction_prep sh)
        = decidePrompt sh.question noPrevSearch)
    ∧ (∀ c, sh.context = some (.str c) →
      DecideAction_promptOf (DecideAction_prep sh) = decidePrompt sh.question c) := by
  constructor
  · intro h
    unfold DecideAction_promptOf DecideAction_prep
    rw [h]
    rfl
  · intro c h
    unfold DecideAction_promptOf DecideAction_prep
    rw [h]
    rfl

theorem c9_witness :
    DecideAction_promptOf (DecideAction_prep sharedStart)
      = decidePrompt nobelQuestion noPrevSearch :=
  (c9_amended sharedStart).1 rfl
